import Mathlib

/- Verification development for the HITRAN CO2 isotopologue pipeline
   (Scripts/hitran_functions.py and Scripts/hitran_to_marvel_inp.py).
   Python strings are modelled as lists of characters, and pandas DataFrames
   as lists of rows, a row being an ordered association list from column name
   to cell value. -/

/-- The apostrophe character, used inside column names such as V-prime. -/
def prime : Char := Char.ofNat 39

/-- List of characters of a string literal. -/
def chars (s : String) : List Char := s.data

/-- Python whitespace as recognised by str.strip: space, TAB, LF, VT, FF, CR. -/
def isPyWs (c : Char) : Bool :=
  c.toNat == 32 || c.toNat == 9 || c.toNat == 10 ||
  c.toNat == 11 || c.toNat == 12 || c.toNat == 13

/-- ASCII decimal digit test (the digits accepted by Python int()). -/
def isDig (c : Char) : Bool := 48 ≤ c.toNat && c.toNat ≤ 57

/-- Numeric value of an ASCII digit character. -/
def charVal (c : Char) : Nat := c.toNat - 48

/-- Python str.ljust: pad on the right with spaces up to width w. -/
def pyLjust (s : List Char) (w : Nat) : List Char :=
  s ++ List.replicate (w - s.length) ' '

/-- Python slice s[a:b] for constants 0 ≤ a ≤ b, clamped to the length. -/
def pySlice (s : List Char) (a b : Nat) : List Char := (s.take b).drop a

/-- Python str.strip(): remove leading and trailing whitespace. -/
def pyStrip (s : List Char) : List Char :=
  ((s.dropWhile isPyWs).reverse.dropWhile isPyWs).reverse

/-- Big-endian decimal value of a digit string. -/
def digitsVal (l : List Char) : Nat := l.foldl (fun a c => 10 * a + charVal c) 0

/-- Python int() on a string: strip whitespace, optional sign, then a nonempty
run of digits; none exactly when Python int() raises ValueError.  (The Python
underscore digit-grouping syntax never occurs in HITRAN fields and is not
modelled.) -/
def pyInt? (s : List Char) : Option Int :=
  match pyStrip s with
  | [] => none
  | c :: r =>
    if c = '+' then (if r ≠ [] ∧ r.all isDig then some (digitsVal r : Int) else none)
    else if c = '-' then (if r ≠ [] ∧ r.all isDig then some (-(digitsVal r : Int)) else none)
    else if (c :: r).all isDig then some (digitsVal (c :: r) : Int) else none

/-- Python str.zfill: left-pad with zeros to width w, keeping a leading sign. -/
def pyZfill (s : List Char) (w : Nat) : List Char :=
  match s with
  | c :: r => if c = '+' ∨ c = '-' then c :: (List.replicate (w - (c :: r).length) '0' ++ r)
              else List.replicate (w - (c :: r).length) '0' ++ (c :: r)
  | [] => List.replicate w '0'

/-- Fuel-driven big-endian decimal rendering; any fuel above the number is
sufficient, and the fuel argument is structurally decreasing. -/
def natDecCore : Nat → Nat → List Char → List Char
  | 0, _, acc => acc
  | fuel + 1, n, acc =>
    if n < 10 then Nat.digitChar n :: acc
    else natDecCore fuel (n / 10) (Nat.digitChar (n % 10) :: acc)

/-- Python str() of a natural number: big-endian decimal digits. -/
def natDec (n : Nat) : List Char := natDecCore (n + 1) n []

/-- A pandas cell value: a string, an integer, a float (kept symbolically as
its decimal literal, since no float arithmetic occurs in the modelled code
paths), or NaN. -/
inductive PyVal where
  | vstr (s : List Char)
  | vint (z : Int)
  | vfloatLit (s : List Char)
  | vnan
deriving DecidableEq

/-- Python truthiness of a cell value; NaN is truthy, and the only float
literal in scope (0.0001) is truthy. -/
def pyFalsy : PyVal → Bool
  | .vstr s => s.isEmpty
  | .vint z => z == 0
  | .vfloatLit _ => false
  | .vnan => false

/-- Python str() of a cell value. -/
def pyStr : PyVal → List Char
  | .vstr s => s
  | .vint z => if z < 0 then '-' :: natDec z.natAbs else natDec z.natAbs
  | .vfloatLit s => s
  | .vnan => ['n', 'a', 'n']

/-- Python int() of a cell value: an int passes through, a string is parsed,
NaN raises; no float cell is ever converted in the modelled paths. -/
def pyIntOfVal : PyVal → Option Int
  | .vint z => some z
  | .vstr s => pyInt? s
  | .vfloatLit _ => none
  | .vnan => none

/-- Result of split_co2_quantum_label: the five vibrational quantum-number
fields of a CO2 global-quanta label (hitran_functions.py lines 56-64). -/
structure VSplit where
  v1 : List Char
  v2 : List Char
  l2 : List Char
  v3 : List Char
  r : List Char
deriving DecidableEq

/-- hitran_functions.split_co2_quantum_label (lines 56-64): right-pad the
stringified label to 15 characters and return the stripped positional spans
[6,8), [8,10), [10,12), [12,14), [14,15). -/
def split_co2_quantum_label (label : List Char) : VSplit :=
  let l := pyLjust label 15
  ⟨pyStrip (pySlice l 6 8), pyStrip (pySlice l 8 10), pyStrip (pySlice l 10 12),
   pyStrip (pySlice l 12 14), pyStrip (pySlice l 14 15)⟩

/-- Result of split_co2_q_label: the alternate form for labels starting with Q
(one field, F-upper), or the normal form (branch, J-lower, parity, F-lower). -/
inductive QSplit where
  | qform (F : List Char)
  | normal (branch J sym F : List Char)
deriving DecidableEq

/-- hitran_functions.split_co2_q_label (lines 67-78): right-pad to 15; a label
whose first character is Q yields the F span [5,10); any other label yields
branch [5,6), J-lower [6,9), parity [9,10), F-lower [10,15), all stripped. -/
def split_co2_q_label (label : List Char) : QSplit :=
  let l := pyLjust label 15
  if pySlice l 0 1 = ['Q'] then .qform (pyStrip (pySlice l 5 10))
  else .normal (pyStrip (pySlice l 5 6)) (pyStrip (pySlice l 6 9))
    (pyStrip (pySlice l 9 10)) (pyStrip (pySlice l 10 15))

deriving instance DecidableEq for Except

/-- Error of the modelled pipeline; the constructors correspond one-to-one to
the raise sites of the Python code (ValueError everywhere, except KeyError for
a missing DataFrame column). -/
inductive PipeError where
  | invalidQuantumNumber
  | invalidBranch
  | fieldType
  | undefinedParity
  | keyError (col : List Char)
deriving DecidableEq

/-- hitran_functions.calc_J_upper (lines 159-182): parse J-lower with int();
branches O,P,Q,R,S map to J-lower plus -2,-1,0,+1,+2 and any other branch
value raises ValueError. -/
def calc_J_upper (branch J_lower : PyVal) : Except PipeError Int :=
  match pyIntOfVal J_lower with
  | none => .error .invalidQuantumNumber
  | some J =>
    if branch = .vstr ['O'] then .ok (J - 2)
    else if branch = .vstr ['P'] then .ok (J - 1)
    else if branch = .vstr ['Q'] then .ok J
    else if branch = .vstr ['R'] then .ok (J + 1)
    else if branch = .vstr ['S'] then .ok (J + 2)
    else .error .invalidBranch

/-- hitran_functions.infer_parity (lines 123-156): convert the upper-state l2
with int(); fail if the known (parsed) lower-state parity is empty; then for
l2 = 0 the P and R branches flip the parity and every other branch keeps it,
while for l2 not 0 the assignment is reversed. -/
def infer_parity (l2_upper branch sym_lower : PyVal) : Except PipeError PyVal :=
  match pyIntOfVal l2_upper with
  | none => .error .fieldType
  | some l2 =>
    if pyFalsy sym_lower then .error .undefinedParity
    else
      let flip : PyVal := if sym_lower = .vstr ['e'] then .vstr ['f'] else .vstr ['e']
      if l2 = 0 then
        if branch = .vstr ['P'] ∨ branch = .vstr ['R'] then .ok flip else .ok sym_lower
      else
        if branch = .vstr ['P'] ∨ branch = .vstr ['R'] then .ok sym_lower else .ok flip

/-- hitran_functions.expand_hitran_fields lines 107-111: zero-fill the I_error
string to six characters and convert each single character with int(). -/
def splitIErrorStr (s : List Char) : Except PipeError (List Int) :=
  (pyZfill s 6).mapM (fun c =>
    match pyInt? [c] with
    | some z => Except.ok z
    | none => Except.error PipeError.fieldType)

/-- hitran_functions.expand_hitran_fields lines 113-118: zero-fill the I_ref
string to twelve characters and convert each two-character span x[i:i+2] for
i = 0, 2, ..., 10 with int(). -/
def splitIRefStr (s : List Char) : Except PipeError (List Int) :=
  (List.range 6).mapM (fun i =>
    match pyInt? (pySlice (pyZfill s 12) (2 * i) (2 * i + 2)) with
    | some z => Except.ok z
    | none => Except.error PipeError.fieldType)

/-- Column-name constants of the decoded HITRAN table (hitran_to_dataframe,
lines 38-44) and of the derived columns.  The apostrophes of the Python
column names are spelled through `prime`. -/
def colI : List Char := chars "I"

/-- Wavenumber column name. -/
def colV : List Char := chars "v"

/-- Upper-state vibrational label column name (V followed by one prime). -/
def colVup : List Char := chars "V" ++ [prime]

/-- Lower-state vibrational label column name (V followed by two primes). -/
def colVlo : List Char := chars "V" ++ [prime, prime]

/-- Upper-state rotational label column name. -/
def colQup : List Char := chars "Q" ++ [prime]

/-- Lower-state rotational label column name. -/
def colQlo : List Char := chars "Q" ++ [prime, prime]

/-- Error-code digit-group column name. -/
def colIErr : List Char := chars "I_error"

/-- Reference-code digit-group column name. -/
def colIRef : List Char := chars "I_ref"

/-- Branch column name, as read by single_isotopologue line 211. -/
def colBranch : List Char := chars "branch"

/-- Lower-state J column name (J followed by two primes). -/
def colJlo : List Char := chars "J" ++ [prime, prime]

/-- Upper-state J column name (J followed by one prime). -/
def colJup : List Char := chars "J" ++ [prime]

/-- Lower-state parity column name. -/
def colSymLo : List Char := chars "sym" ++ [prime, prime]

/-- Upper-state parity column name. -/
def colSymUp : List Char := chars "sym" ++ [prime]

/-- Upper-state l2 column name. -/
def colL2up : List Char := chars "l2" ++ [prime]

/-- Uncertainty column name of the MARVEL output. -/
def colUnc : List Char := chars "unc"

/-- Tag column name of the MARVEL output. -/
def colTag : List Char := chars "tag"

/-- Suffix appended to expanded upper-state columns (one prime). -/
def sfxUp : List Char := [prime]

/-- Suffix appended to expanded lower-state columns (two primes). -/
def sfxLo : List Char := [prime, prime]

/-- The polyad-dummy marker of single_isotopologue lines 204-205. -/
def marker : List Char := chars "-2-2-2-20"

/-- A DataFrame row: an ordered association list from column name to cell. -/
abbrev Row := List (List Char × PyVal)

/-- A DataFrame: a list of rows (nonempty frames; pandas keeps a schema on
empty frames, which the modelled claims never exercise). -/
abbrev Table := List Row

/-- First cell stored under a column name in a row, if any. -/
def rowGet? (r : Row) (c : List Char) : Option PyVal :=
  (r.find? (fun p => p.1 == c)).map Prod.snd

/-- pandas Series indexing row[key]: KeyError when the key is absent. -/
def rowGetE (r : Row) (c : List Char) : Except PipeError PyVal :=
  match rowGet? r c with
  | some v => .ok v
  | none => .error (.keyError c)

/-- Whether a row carries a column. -/
def rowHasCol (r : Row) (c : List Char) : Bool := (r.find? (fun p => p.1 == c)).isSome

/-- Replace the cell of a column in place when present, append it otherwise
(pandas column assignment). -/
def rowSet (r : Row) (c : List Char) (v : PyVal) : Row :=
  if rowHasCol r c then r.map (fun p => if p.1 == c then (c, v) else p)
  else r ++ [(c, v)]

/-- The column names of a table: union of the row keys in first-appearance
order (pandas DataFrame.columns after a concat of per-row dicts). -/
def tableCols (t : Table) : List (List Char) :=
  t.foldl (fun acc r => acc ++ (r.map Prod.fst).filter (fun c => !acc.contains c)) []

/-- pandas df[c]: the column as a list of cells; KeyError when the column is
missing everywhere; a row lacking the column after a ragged concat reads NaN. -/
def getCol (t : Table) (c : List Char) : Except PipeError (List PyVal) :=
  if (tableCols t).contains c then .ok (t.map (fun r => (rowGet? r c).getD .vnan))
  else .error (.keyError c)

/-- pandas df[c] = values, one value per row. -/
def setCol (t : Table) (c : List Char) (vals : List PyVal) : Table :=
  (t.zip vals).map (fun p => rowSet p.1 c p.2)

/-- pandas astype(int) on a list of cells: int() each cell, error when one
does not convert. -/
def astypeIntVals (vals : List PyVal) : Except PipeError (List PyVal) :=
  vals.mapM (fun v =>
    match pyIntOfVal v with
    | some z => Except.ok (PyVal.vint z)
    | none => Except.error PipeError.fieldType)

/-- pandas df.drop(columns=cs): KeyError when a column is missing. -/
def dropCols (t : Table) (cs : List (List Char)) : Except PipeError Table :=
  match cs.find? (fun c => !(tableCols t).contains c) with
  | some c => .error (.keyError c)
  | none => .ok (t.map (fun r => r.filter (fun p => !cs.contains p.1)))

/-- One projected row of a pandas df[[c1..cn]] selection: the requested
columns in the given order (a row lacking one reads NaN). -/
def projRow (cs : List (List Char)) (r : Row) : Row :=
  cs.map (fun c => (c, (rowGet? r c).getD .vnan))

/-- pandas df[[c1..cn]] projection: KeyError when a requested column is
missing; each row is rebuilt with the requested columns in the given order. -/
def selectCols (t : Table) (cs : List (List Char)) : Except PipeError Table :=
  match cs.find? (fun c => !(tableCols t).contains c) with
  | some c => .error (.keyError c)
  | none => .ok (t.map (projRow cs))

/-- pandas pd.concat([df, label_df], axis=1): append the new columns of each
row after the existing ones. -/
def concatCols (t : Table) (newRows : List Row) : Table :=
  (t.zip newRows).map (fun p => p.1 ++ p.2)

/-- Lines 92-93 of hitran_functions.py: df[dst] = df[src].astype(int).  The
value frame is computed first, then pandas _setitem_array assigns column by
column, pairing dst with the value columns positionally. -/
def assignIntCols (t : Table) (dst src : List (List Char)) : Except PipeError Table := do
  let colsVals ← src.mapM (fun c => do astypeIntVals (← getCol t c))
  return (dst.zip colsVals).foldl (fun acc p => setCol acc p.1 p.2) t

/-- The per-row dict produced by split_co2_quantum_label, in insertion order
(keys v1, v2, l2, v3, r). -/
def vibDict (v : PyVal) : Row :=
  let s := split_co2_quantum_label (pyStr v)
  [(chars "v1", .vstr s.v1), (chars "v2", .vstr s.v2), (chars "l2", .vstr s.l2),
   (chars "v3", .vstr s.v3), (chars "r", .vstr s.r)]

/-- One iteration of the V-expansion loop (lines 83-88): split the field
column, rename the resulting keys by appending the side suffix, and concat. -/
def expandVibField (t : Table) (field sfx : List Char) : Except PipeError Table := do
  let vals ← getCol t field
  return concatCols t (vals.map (fun v => (vibDict v).map (fun p => (p.1 ++ sfx, p.2))))

/-- hitran_functions.expand_hitran_fields lines 82-93: expand the two
vibrational labels, drop them, then convert the upper-state quantum numbers
to integers.  The source list of the conversion (line 93) literally reads
v1, v2, l2, v3 with one prime and r with two primes, so the upper-state r
column is assigned from the lower-state r values. -/
def expandVib (t : Table) : Except PipeError Table := do
  let t ← expandVibField t colVup sfxUp
  let t ← expandVibField t colVlo sfxLo
  let t ← dropCols t [colVup, colVlo]
  assignIntCols t
    [chars "v1" ++ sfxUp, chars "v2" ++ sfxUp, chars "l2" ++ sfxUp,
     chars "v3" ++ sfxUp, chars "r" ++ sfxUp]
    [chars "v1" ++ sfxUp, chars "v2" ++ sfxUp, chars "l2" ++ sfxUp,
     chars "v3" ++ sfxUp, chars "r" ++ sfxLo]

/-- The per-row dict produced by split_co2_q_label, in insertion order.  The
keys of the normal form already carry the lower-state primes, exactly as in
the source (lines 73-78). -/
def qDict (v : PyVal) : Row :=
  match split_co2_q_label (pyStr v) with
  | .qform F => [(chars "F" ++ [prime], .vstr F)]
  | .normal b J sym F =>
    [(colBranch, .vstr b), (colJlo, .vstr J), (colSymLo, .vstr sym),
     (chars "F" ++ [prime, prime], .vstr F)]

/-- One iteration of the Q-expansion loop (lines 96-101): split the field
column, rename every resulting key by appending the side suffix, and concat. -/
def expandQField (t : Table) (field sfx : List Char) : Except PipeError Table := do
  let vals ← getCol t field
  return concatCols t (vals.map (fun v => (qDict v).map (fun p => (p.1 ++ sfx, p.2))))

/-- hitran_functions.expand_hitran_fields lines 95-105: expand the two
rotational labels (appending the side suffix to keys that already end in
primes), drop them, then read the J-lower column and convert it to integers. -/
def expandQ (t : Table) : Except PipeError Table := do
  let t ← expandQField t colQup sfxUp
  let t ← expandQField t colQlo sfxLo
  let t ← dropCols t [colQup, colQlo]
  let jv ← getCol t colJlo
  let jv ← astypeIntVals jv
  return setCol t colJlo jv

/-- The six derived digit-group column names base_1 .. base_6. -/
def digitColNames (base : List Char) : List (List Char) :=
  (List.range 6).map (fun i => base ++ ['_'] ++ natDec (i + 1))

/-- hitran_functions.expand_hitran_fields lines 107-118: zero-fill the two
digit-group columns in place and concat their six per-digit integer columns. -/
def expandDigits (t : Table) : Except PipeError Table := do
  let ev ← getCol t colIErr
  let t := setCol t colIErr (ev.map (fun v => PyVal.vstr (pyZfill (pyStr v) 6)))
  let eInts ← ev.mapM (fun v => splitIErrorStr (pyStr v))
  let t := concatCols t (eInts.map (fun l => (digitColNames colIErr).zip (l.map PyVal.vint)))
  let rv ← getCol t colIRef
  let t := setCol t colIRef (rv.map (fun v => PyVal.vstr (pyZfill (pyStr v) 12)))
  let rInts ← rv.mapM (fun v => splitIRefStr (pyStr v))
  return concatCols t (rInts.map (fun l => (digitColNames colIRef).zip (l.map PyVal.vint)))

/-- hitran_functions.expand_hitran_fields (lines 81-120). -/
def expand_hitran_fields (t : Table) : Except PipeError Table := do
  let t ← expandVib t
  let t ← expandQ t
  expandDigits t

/-- Whether sub occurs at the head of s. -/
def leadMatch : List Char → List Char → Bool
  | [], _ => true
  | _ :: _, [] => false
  | a :: as, b :: bs => a == b && leadMatch as bs

/-- Whether sub occurs anywhere inside s (pandas str.contains with a literal
pattern: the dummy marker has no regex metacharacters). -/
def hasSub (s sub : List Char) : Bool :=
  (List.range (s.length + 1)).any (fun i => leadMatch sub (s.drop i))

/-- hitran_functions.single_isotopologue (lines 185-222, with branches=False):
filter on the isotopologue code, remove the polyad-dummy rows on both raw
vibrational labels before any splitting, expand the fields, then derive the
J-upper and parity-upper columns row-wise.  (The source interleaves the row
lookups of infer_parity with its l2 conversion; the wrapper below performs
the lookups in source order before calling it.) -/
def single_isotopologue (df_all : Table) (iso : PyVal) : Except PipeError Table := do
  let _ ← getCol df_all colI
  let t := df_all.filter (fun r => (rowGet? r colI).getD .vnan == iso)
  let _ ← getCol t colVup
  let t := t.filter (fun r => !hasSub (pyStr ((rowGet? r colVup).getD .vnan)) marker)
  let _ ← getCol t colVlo
  let t := t.filter (fun r => !hasSub (pyStr ((rowGet? r colVlo).getD .vnan)) marker)
  let t ← expand_hitran_fields t
  let jv ← t.mapM (fun r => do
    let b ← rowGetE r colBranch
    let j ← rowGetE r colJlo
    calc_J_upper b j)
  let t := setCol t colJup (jv.map PyVal.vint)
  let sv ← t.mapM (fun r => do
    let l2 ← rowGetE r colL2up
    let s ← rowGetE r colSymLo
    let b ← rowGetE r colBranch
    infer_parity l2 b s)
  return setCol t colSymUp sv

/-- The column selection of hitran_to_marvel_inp.main lines 72-73, in source
order. -/
def marvelSelCols : List (List Char) :=
  [colV,
   chars "v1" ++ sfxUp, chars "v2" ++ sfxUp, chars "l2" ++ sfxUp,
   chars "v3" ++ sfxUp, chars "r" ++ sfxUp, colJup, colSymUp,
   chars "v1" ++ sfxLo, chars "v2" ++ sfxLo, chars "l2" ++ sfxLo,
   chars "v3" ++ sfxLo, chars "r" ++ sfxLo, colJlo, colSymLo]

/-- Line 74 of hitran_to_marvel_inp.py: insert the caller-supplied constant
uncertainty 0.0001 at position 1 of a row. -/
def marvelUncRow (r : Row) : Row :=
  r.take 1 ++ [(colUnc, PyVal.vfloatLit (chars "0.0001"))] ++ r.drop 1

/-- The tag cell of row index i (lines 76-77): the string tag followed by the
decimal rendering of i + 1. -/
def marvelTag (i : Nat) : PyVal := .vstr (chars "tag" ++ natDec (i + 1))

/-- Append the tag cell to the row of an enumerated pair. -/
def marvelTagRow (p : Nat × Row) : Row := p.2 ++ [(colTag, marvelTag p.1)]

/-- hitran_to_marvel_inp.main lines 72-77: project the isotopologue table
onto the MARVEL columns, insert the constant uncertainty at position 1, and
append the per-row tag column tag1, tag2, ... . -/
def marvel_input (iso : Table) : Except PipeError Table := do
  let t ← selectCols iso marvelSelCols
  let t := t.map marvelUncRow
  return t.enum.map marvelTagRow

/-- The canonical output column order claimed for the MARVEL record set. -/
def canonicalCols : List (List Char) :=
  [colV, colUnc,
   chars "v1" ++ sfxUp, chars "v2" ++ sfxUp, chars "l2" ++ sfxUp,
   chars "v3" ++ sfxUp, chars "r" ++ sfxUp, colJup, colSymUp,
   chars "v1" ++ sfxLo, chars "v2" ++ sfxLo, chars "l2" ++ sfxLo,
   chars "v3" ++ sfxLo, chars "r" ++ sfxLo, colJlo, colSymLo, colTag]

/-- The e/f parity flip named by the specification. -/
def flipParity (p : PyVal) : PyVal := if p = .vstr ['e'] then .vstr ['f'] else .vstr ['e']

/-- A record whose two vibrational labels differ in every quantum number;
the upper label carries r = 5 and the lower label carries r = 2. -/
def vibTypoRow : Row :=
  [(colVup, .vstr (chars "       1 2 3 45")), (colVlo, .vstr (chars "       6 7 8 92"))]

/-- A well-formed decoded record of isotopologue 1 (clean labels, branch R,
J-lower 10, parity e), restricted to the columns the pipeline touches before
it fails. -/
def isoCrashRow : Row :=
  [(colI, .vint 1),
   (colVup, .vstr (chars "       1 2 3 45")),
   (colVlo, .vstr (chars "       6 7 8 92")),
   (colQup, .vstr []),
   (colQlo, .vstr (chars "     R 10e     "))]

/-- A two-row table carrying every column the MARVEL assembler selects. -/
def marvelDemo : Table :=
  [marvelSelCols.map (fun c => (c, PyVal.vint 0)),
   marvelSelCols.map (fun c => (c, PyVal.vint 1))]

/- ------------------------------------------------------------------ -/
/- Helper lemmas.                                                      -/
/- ------------------------------------------------------------------ -/

theorem pyLjust_of_le (s : List Char) (w : Nat) (h : w ≤ s.length) : pyLjust s w = s := by
  simp [pyLjust, Nat.sub_eq_zero_of_le h]

theorem pyLjust_length (s : List Char) (w : Nat) : w ≤ (pyLjust s w).length := by
  simp [pyLjust]; omega

theorem pyLjust_pyLjust (s : List Char) (w : Nat) :
    pyLjust (pyLjust s w) w = pyLjust s w :=
  pyLjust_of_le _ _ (pyLjust_length s w)

theorem pySlice_length_le (s : List Char) (a b : Nat) :
    (pySlice s a b).length ≤ b - a := by
  simp [pySlice]; omega

theorem pyStrip_length_le (s : List Char) : (pyStrip s).length ≤ s.length := by
  have h1 := (List.dropWhile_sublist (l := s) (p := isPyWs)).length_le
  have h2 := (List.dropWhile_sublist (l := (s.dropWhile isPyWs).reverse) (p := isPyWs)).length_le
  simp only [pyStrip, List.length_reverse] at *
  omega

theorem dig_not_ws {c : Char} (h : isDig c = true) : isPyWs c = false := by
  simp only [isDig, Bool.and_eq_true, decide_eq_true_eq] at h
  simp only [isPyWs, Bool.or_eq_false_iff, beq_eq_false_iff_ne, ne_eq]
  omega

theorem dropWhile_ws_of_digits (s : List Char) (h : ∀ c ∈ s, isDig c = true) :
    s.dropWhile isPyWs = s := by
  cases s with
  | nil => rfl
  | cons a l =>
    have ha : isPyWs a = false := dig_not_ws (h a (by simp))
    simp [List.dropWhile_cons, ha]

theorem pyStrip_of_digits (s : List Char) (h : ∀ c ∈ s, isDig c = true) :
    pyStrip s = s := by
  unfold pyStrip
  rw [dropWhile_ws_of_digits s h,
      dropWhile_ws_of_digits s.reverse (fun c hc => h c (List.mem_reverse.mp hc)),
      List.reverse_reverse]

theorem isDig_not_sign {c : Char} (h : isDig c = true) : ¬ c = '+' ∧ ¬ c = '-' := by
  constructor <;> intro e <;> subst e <;> revert h <;> decide

theorem pyInt?_all_digits (s : List Char) (h0 : s ≠ []) (h : ∀ c ∈ s, isDig c = true) :
    pyInt? s = some (digitsVal s : Int) := by
  unfold pyInt?
  rw [pyStrip_of_digits s h]
  cases s with
  | nil => exact absurd rfl h0
  | cons a l =>
    have ha := isDig_not_sign (h a (by simp))
    have hall : (a :: l).all isDig = true := by
      rw [List.all_eq_true]; exact fun c hc => h c hc
    simp [ha.1, ha.2, hall]

theorem digitsVal_append_one (l : List Char) (c : Char) :
    digitsVal (l ++ [c]) = 10 * digitsVal l + charVal c := by
  simp [digitsVal, List.foldl_append]

theorem digitsVal_one (c : Char) : digitsVal [c] = charVal c := by
  simp [digitsVal]

theorem digitsVal_two (a b : Char) : digitsVal [a, b] = 10 * charVal a + charVal b := by
  simp [digitsVal]

theorem exceptMapM_ok {α β : Type} (f : α → Except PipeError β) (g : α → β) :
    ∀ l : List α, (∀ a ∈ l, f a = .ok (g a)) → l.mapM f = .ok (l.map g) := by
  intro l
  induction l with
  | nil => intro _; rfl
  | cons a l ih =>
    intro h
    rw [List.mapM_cons, h a (by simp), ih (fun x hx => h x (by simp [hx]))]
    rfl

theorem pyZfill_of_digits (s : List Char) (w : Nat) (h : ∀ c ∈ s, isDig c = true) :
    pyZfill s w = List.replicate (w - s.length) '0' ++ s := by
  cases s with
  | nil => simp [pyZfill]
  | cons a l =>
    have ha := isDig_not_sign (h a (by simp))
    simp [pyZfill, ha.1, ha.2]

theorem pyZfill_digits_mem (s : List Char) (w : Nat) (h : ∀ c ∈ s, isDig c = true) :
    ∀ c ∈ pyZfill s w, isDig c = true := by
  rw [pyZfill_of_digits s w h]
  intro c hc
  rcases List.mem_append.mp hc with hc | hc
  · rw [List.eq_of_mem_replicate hc]; decide
  · exact h c hc

theorem pyZfill_length (s : List Char) (w : Nat) (h : ∀ c ∈ s, isDig c = true)
    (hw : s.length ≤ w) : (pyZfill s w).length = w := by
  rw [pyZfill_of_digits s w h]
  simp
  omega

theorem natDecCore_succ (f n : Nat) (acc : List Char) :
    natDecCore (f + 1) n acc =
      if n < 10 then Nat.digitChar n :: acc
      else natDecCore f (n / 10) (Nat.digitChar (n % 10) :: acc) := rfl

theorem natDecCore_acc (fuel : Nat) : ∀ n acc, natDecCore fuel n acc = natDecCore fuel n [] ++ acc := by
  induction fuel with
  | zero => intro n acc; simp [natDecCore]
  | succ f ih =>
    intro n acc
    by_cases h : n < 10
    · simp [natDecCore, h]
    · simp only [natDecCore, if_neg h]
      rw [ih (n / 10) (Nat.digitChar (n % 10) :: acc), ih (n / 10) [Nat.digitChar (n % 10)]]
      simp

theorem natDecCore_fuel (n : Nat) : ∀ fuel, n < fuel → natDecCore fuel n [] = natDec n := by
  induction n using Nat.strong_induction_on with
  | _ n ih =>
    intro fuel hf
    cases fuel with
    | zero => omega
    | succ f =>
      by_cases h : n < 10
      · rw [natDecCore_succ, if_pos h, natDec, natDecCore_succ, if_pos h]
      · have hdiv : n / 10 < n := Nat.div_lt_self (by omega) (by omega)
        have hlhs : natDecCore (f + 1) n [] =
            natDec (n / 10) ++ [Nat.digitChar (n % 10)] := by
          rw [natDecCore_succ, if_neg h, natDecCore_acc, ih (n / 10) hdiv f (by omega)]
        have hrhs : natDec n = natDec (n / 10) ++ [Nat.digitChar (n % 10)] := by
          rw [natDec, natDecCore_succ, if_neg h, natDecCore_acc, ih (n / 10) hdiv n (by omega)]
        rw [hlhs, hrhs]

theorem natDec_lt_ten {n : Nat} (h : n < 10) : natDec n = [Nat.digitChar n] := by
  rw [natDec, natDecCore_succ, if_pos h]

theorem natDec_ge_ten {n : Nat} (h : 10 ≤ n) :
    natDec n = natDec (n / 10) ++ [Nat.digitChar (n % 10)] := by
  have hdiv : n / 10 < n := Nat.div_lt_self (by omega) (by omega)
  rw [natDec, natDecCore_succ, if_neg (by omega : ¬ n < 10), natDecCore_acc,
      natDecCore_fuel (n / 10) n (by omega)]

theorem charVal_digitChar : ∀ m, m < 10 → charVal (Nat.digitChar m) = m := by decide

theorem digitsVal_natDec (n : Nat) : digitsVal (natDec n) = n := by
  induction n using Nat.strong_induction_on with
  | _ n ih =>
    by_cases h : n < 10
    · rw [natDec_lt_ten h, digitsVal_one, charVal_digitChar n h]
    · have hdiv : n / 10 < n := Nat.div_lt_self (by omega) (by omega)
      rw [natDec_ge_ten (by omega), digitsVal_append_one, ih (n / 10) hdiv,
          charVal_digitChar (n % 10) (by omega)]
      omega

theorem natDec_injective : Function.Injective natDec := by
  intro a b h
  rw [← digitsVal_natDec a, ← digitsVal_natDec b, h]

theorem pySlice_two (l : List Char) (a : Nat) (h : a + 2 ≤ l.length) :
    pySlice l a (a + 2) = [l.getD a '0', l.getD (a + 1) '0'] := by
  have h1 : a < l.length := by omega
  have h2 : a + 1 < l.length := by omega
  rw [pySlice, List.drop_take, (by omega : a + 2 - a = 2),
      List.drop_eq_getElem_cons h1, List.drop_eq_getElem_cons h2,
      List.getD_eq_getElem l '0' h1, List.getD_eq_getElem l '0' h2]
  rfl

theorem pyInt?_one_digit (c : Char) (hc : isDig c = true) :
    pyInt? [c] = some ((charVal c : Nat) : Int) := by
  rw [pyInt?_all_digits [c] (by simp) (by simp [hc]), digitsVal_one]

theorem pyInt?_two_digits (a b : Char) (ha : isDig a = true) (hb : isDig b = true) :
    pyInt? [a, b] = some ((10 * charVal a + charVal b : Nat) : Int) := by
  rw [pyInt?_all_digits [a, b] (by simp)
    (by simp [List.forall_mem_cons]; exact ⟨ha, hb⟩), digitsVal_two]

/- ------------------------------------------------------------------ -/
/- Claim theorems.                                                     -/
/- ------------------------------------------------------------------ -/

/-- C1: for every branch letter in O,P,Q,R,S and every J-lower value that
parses as an integer, calc_J_upper returns J-lower plus -2,-1,0,+1,+2
respectively, and for every branch value outside that set it fails with the
invalid-branch error instead of returning a value. -/
theorem C1_calc_J_upper_table (Jv : PyVal) (z : Int) (hz : pyIntOfVal Jv = some z) :
    calc_J_upper (.vstr ['O']) Jv = .ok (z - 2) ∧
    calc_J_upper (.vstr ['P']) Jv = .ok (z - 1) ∧
    calc_J_upper (.vstr ['Q']) Jv = .ok z ∧
    calc_J_upper (.vstr ['R']) Jv = .ok (z + 1) ∧
    calc_J_upper (.vstr ['S']) Jv = .ok (z + 2) ∧
    ∀ b : PyVal,
      b ∉ [PyVal.vstr ['O'], PyVal.vstr ['P'], PyVal.vstr ['Q'],
           PyVal.vstr ['R'], PyVal.vstr ['S']] →
      calc_J_upper b Jv = .error .invalidBranch := by
  refine ⟨by simp [calc_J_upper, hz], by simp [calc_J_upper, hz],
          by simp [calc_J_upper, hz], by simp [calc_J_upper, hz],
          by simp [calc_J_upper, hz], ?_⟩
  intro b hb
  simp only [List.mem_cons, List.not_mem_nil, or_false, not_or] at hb
  simp [calc_J_upper, hz, hb.1, hb.2.1, hb.2.2.1, hb.2.2.2.1, hb.2.2.2.2]

/-- Witness for C1 at branch R, J-lower the string 10, and the unrecognised
branch letter X. -/
theorem C1_witness :
    calc_J_upper (.vstr ['R']) (.vstr ['1', '0']) = .ok 11 ∧
    calc_J_upper (.vstr ['X']) (.vstr ['1', '0']) = .error .invalidBranch := by
  have h := C1_calc_J_upper_table (.vstr ['1', '0']) 10 (by decide)
  exact ⟨by simpa using h.2.2.2.1, h.2.2.2.2.2 _ (by decide)⟩

/-- C2: with an integer upper-state l2 and a known parity e or f, the derived
parity of the other state flips for P and R and is kept for Q when l2 = 0,
and the assignment is reversed when l2 is positive; in particular scenario 1
(l2 = 0, branch R, parity e gives f) and scenario 2 (l2 = 0, branch Q,
parity e gives e) hold. -/
theorem C2_selection_rule_parity (l2v symv : PyVal) (z : Int)
    (hz : pyIntOfVal l2v = some z)
    (hs : symv = PyVal.vstr ['e'] ∨ symv = PyVal.vstr ['f']) :
    (z = 0 →
      (∀ b, (b = PyVal.vstr ['P'] ∨ b = PyVal.vstr ['R']) →
        infer_parity l2v b symv = .ok (flipParity symv)) ∧
      infer_parity l2v (.vstr ['Q']) symv = .ok symv) ∧
    (0 < z →
      (∀ b, (b = PyVal.vstr ['P'] ∨ b = PyVal.vstr ['R']) →
        infer_parity l2v b symv = .ok symv) ∧
      infer_parity l2v (.vstr ['Q']) symv = .ok (flipParity symv)) := by
  have hflip : (if symv = PyVal.vstr ['e'] then PyVal.vstr ['f'] else PyVal.vstr ['e'])
      = flipParity symv := rfl
  constructor
  · intro hz0
    subst hz0
    refine ⟨fun b hb => ?_, ?_⟩
    · rcases hs with h | h <;> subst h <;>
        rcases hb with h | h <;> subst h <;> simp [infer_parity, hz, pyFalsy, flipParity]
    · rcases hs with h | h <;> subst h <;> simp [infer_parity, hz, pyFalsy]
  · intro hzpos
    have hz0 : ¬ (z = 0) := by omega
    refine ⟨fun b hb => ?_, ?_⟩
    · rcases hs with h | h <;> subst h <;>
        rcases hb with h | h <;> subst h <;> simp [infer_parity, hz, pyFalsy, hz0]
    · rcases hs with h | h <;> subst h <;>
        simp [infer_parity, hz, pyFalsy, hz0, flipParity]

/-- Witness for C2: the two end-to-end scenarios, l2 = 0 with branch R and
known parity e derives f, and l2 = 0 with branch Q and known parity e keeps
e. -/
theorem C2_witness :
    infer_parity (.vstr ['0']) (.vstr ['R']) (.vstr ['e']) = .ok (.vstr ['f']) ∧
    infer_parity (.vstr ['0']) (.vstr ['Q']) (.vstr ['e']) = .ok (.vstr ['e']) := by
  have h := C2_selection_rule_parity (.vstr ['0']) (.vstr ['e']) 0 (by decide) (Or.inl rfl)
  exact ⟨by simpa [flipParity] using (h.1 rfl).1 _ (Or.inr rfl), (h.1 rfl).2⟩

/-- C3: contrary to the claim, calc_J_upper silently returns a negative
J-upper at the boundary J-lower = 0 for the O and P branches, and it also
accepts a negative J-lower string; no invalid-quantum-number failure or flag
is produced at these inputs. -/
theorem C3_negative_J_silently_returned :
    calc_J_upper (.vstr ['O']) (.vstr ['0']) = .ok (-2) ∧
    calc_J_upper (.vstr ['P']) (.vstr ['0']) = .ok (-1) ∧
    calc_J_upper (.vstr ['O']) (.vstr ['-', '5']) = .ok (-7) := by decide

/-- C9: whenever the known parsed parity cell is the empty string (and the
upper-state l2 converts to an integer, as it always does for records that
reach parity inference), infer_parity fails with the undefined-parity error
and fabricates no parity value. -/
theorem C9_empty_parity_fails (l2v bv : PyVal) (z : Int)
    (hz : pyIntOfVal l2v = some z) :
    infer_parity l2v bv (.vstr []) = .error .undefinedParity := by
  simp [infer_parity, hz, pyFalsy]

/-- Witness for C9 at l2 = 0, branch R, empty parity cell. -/
theorem C9_witness :
    infer_parity (.vstr ['0']) (.vstr ['R']) (.vstr []) = .error .undefinedParity :=
  C9_empty_parity_fails (.vstr ['0']) (.vstr ['R']) 0 (by decide)

/-- C6: on an all-digit group string of the expected width, I_error splits
into the six single-digit integers of its six-zero-filled form and I_ref
splits into the six two-digit integers of its twelve-zero-filled form, in
order. -/
theorem C6_digit_groups (s : List Char) (hd : ∀ c ∈ s, isDig c = true) :
    (s.length ≤ 6 →
      splitIErrorStr s = .ok ((pyZfill s 6).map (fun c => ((charVal c : Nat) : Int))) ∧
      (pyZfill s 6).length = 6) ∧
    (s.length ≤ 12 →
      splitIRefStr s = .ok ((List.range 6).map
        (fun i => ((10 * charVal ((pyZfill s 12).getD (2 * i) '0') +
                    charVal ((pyZfill s 12).getD (2 * i + 1) '0') : Nat) : Int))) ∧
      (pyZfill s 12).length = 12) := by
  constructor
  · intro hw
    refine ⟨?_, pyZfill_length s 6 hd hw⟩
    unfold splitIErrorStr
    apply exceptMapM_ok
    intro c hc
    have hcd : isDig c = true := pyZfill_digits_mem s 6 hd c hc
    rw [pyInt?_one_digit c hcd]
  · intro hw
    have hlen : (pyZfill s 12).length = 12 := pyZfill_length s 12 hd hw
    refine ⟨?_, hlen⟩
    unfold splitIRefStr
    apply exceptMapM_ok
    intro i hi
    have hi6 : i < 6 := List.mem_range.mp hi
    have hb : 2 * i + 2 ≤ (pyZfill s 12).length := by omega
    rw [pySlice_two (pyZfill s 12) (2 * i) hb]
    have hmem : ∀ j, j < 12 → isDig ((pyZfill s 12).getD j '0') = true := by
      intro j hj
      have hj' : j < (pyZfill s 12).length := by omega
      rw [List.getD_eq_getElem _ '0' hj']
      exact pyZfill_digits_mem s 12 hd _ (List.getElem_mem hj')
    rw [pyInt?_two_digits _ _ (hmem (2 * i) (by omega)) (hmem (2 * i + 1) (by omega))]

/-- Witness for C6: the end-to-end scenario I_ref string 010203040506 splits
into 1,2,3,4,5,6, and the I_error string 435332 splits into its six digits. -/
theorem C6_witness :
    splitIRefStr (chars "010203040506") = .ok [1, 2, 3, 4, 5, 6] ∧
    splitIErrorStr (chars "435332") = .ok [4, 3, 5, 3, 3, 2] := by
  have h1 := ((C6_digit_groups (chars "010203040506") (by decide)).2 (by decide)).1
  have h2 := ((C6_digit_groups (chars "435332") (by decide)).1 (by decide)).1
  exact ⟨h1.trans (by decide), h2.trans (by decide)⟩

theorem qhead_iff (label : List Char) :
    pySlice (pyLjust label 15) 0 1 = ['Q'] ↔ label.head? = some 'Q' := by
  cases label with
  | nil => decide
  | cons a l => simp [pyLjust, pySlice]

/-- C8 counterexample: a rotational label matching no recognised pattern (its
branch position holds F and its J digits are letters) still returns a value
from split_co2_q_label; no failure occurs. -/
theorem C8_counterexample_no_failure :
    split_co2_q_label (chars "ABCDEFGHIJKLMNO") =
      QSplit.normal ['F'] (chars "GHI") ['J'] (chars "KLMNO") := by decide

/-- C8 amended: split_co2_q_label never fails; a label whose first character
is Q yields the alternate F form, and every other label, recognised or not,
yields the normal form whose fields are the stripped positional spans of the
15-padded label. -/
theorem C8_amended_split_total (label : List Char) :
    (label.head? = some 'Q' →
      split_co2_q_label label = .qform (pyStrip (pySlice (pyLjust label 15) 5 10))) ∧
    (label.head? ≠ some 'Q' →
      split_co2_q_label label =
        .normal (pyStrip (pySlice (pyLjust label 15) 5 6))
          (pyStrip (pySlice (pyLjust label 15) 6 9))
          (pyStrip (pySlice (pyLjust label 15) 9 10))
          (pyStrip (pySlice (pyLjust label 15) 10 15))) := by
  constructor
  · intro h
    simp only [split_co2_q_label]
    rw [if_pos ((qhead_iff label).mpr h)]
  · intro h
    simp only [split_co2_q_label]
    rw [if_neg (fun hc => h ((qhead_iff label).mp hc))]

/-- Witness for C8 amended, at a Q-prefixed label and at a malformed label. -/
theorem C8_witness :
    split_co2_q_label (chars "QWERTYUIOPAS") =
      .qform (pyStrip (pySlice (pyLjust (chars "QWERTYUIOPAS") 15) 5 10)) ∧
    split_co2_q_label (chars "##") =
      .normal (pyStrip (pySlice (pyLjust (chars "##") 15) 5 6))
        (pyStrip (pySlice (pyLjust (chars "##") 15) 6 9))
        (pyStrip (pySlice (pyLjust (chars "##") 15) 9 10))
        (pyStrip (pySlice (pyLjust (chars "##") 15) 10 15)) :=
  ⟨(C8_amended_split_total (chars "QWERTYUIOPAS")).1 (by decide),
   (C8_amended_split_total (chars "##")).2 (by decide)⟩

/-- C10: the label splitters are total: padding the input to 15 characters
first changes nothing, the empty string splits into empty fields with no
failure, and every vibrational field is bounded by its span width. -/
theorem C10_splitters_are_total :
    (∀ s : List Char, split_co2_quantum_label (pyLjust s 15) = split_co2_quantum_label s) ∧
    (∀ s : List Char, split_co2_q_label (pyLjust s 15) = split_co2_q_label s) ∧
    split_co2_quantum_label [] = ⟨[], [], [], [], []⟩ ∧
    split_co2_q_label [] = .normal [] [] [] [] ∧
    (∀ s : List Char,
      (split_co2_quantum_label s).v1.length ≤ 2 ∧
      (split_co2_quantum_label s).v2.length ≤ 2 ∧
      (split_co2_quantum_label s).l2.length ≤ 2 ∧
      (split_co2_quantum_label s).v3.length ≤ 2 ∧
      (split_co2_quantum_label s).r.length ≤ 1) := by
  refine ⟨fun s => ?_, fun s => ?_, by decide, by decide, fun s => ?_⟩
  · simp only [split_co2_quantum_label, pyLjust_pyLjust]
  · simp only [split_co2_q_label, pyLjust_pyLjust]
  · refine ⟨?_, ?_, ?_, ?_, ?_⟩ <;>
      exact le_trans (pyStrip_length_le _) (le_trans (pySlice_length_le _ _ _) (by omega))

/-- C4: at a record whose two vibrational labels differ everywhere, the
splitting itself is positional (the upper label carries r = 5), yet lines
92-93 of expand_hitran_fields assign the expanded upper-state r from the
lower-state label (the source column list ends in r with two primes, so the
result is the integer 2 from the lower label) and leave every lower-state
quantum number as a string. -/
theorem C4_r_upper_taken_from_lower :
    (split_co2_quantum_label (chars "       1 2 3 45")).r = ['5'] ∧
    expandVib [vibTypoRow] = .ok [[
      (chars "v1" ++ sfxUp, .vint 1), (chars "v2" ++ sfxUp, .vint 2),
      (chars "l2" ++ sfxUp, .vint 3), (chars "v3" ++ sfxUp, .vint 4),
      (chars "r" ++ sfxUp, .vint 2),
      (chars "v1" ++ sfxLo, .vstr ['6']), (chars "v2" ++ sfxLo, .vstr ['7']),
      (chars "l2" ++ sfxLo, .vstr ['8']), (chars "v3" ++ sfxLo, .vstr ['9']),
      (chars "r" ++ sfxLo, .vstr ['2'])]] := by decide

/-- C5: single_isotopologue never returns a record collection: on a
well-formed one-record table of isotopologue 1 with clean labels it fails
with KeyError on the J-lower column, whose name the Q-expansion suffixing
destroyed. -/
theorem C5_single_isotopologue_never_returns :
    single_isotopologue [isoCrashRow] (.vint 1) = .error (.keyError colJlo) := by decide

theorem marvelTag_injective : Function.Injective marvelTag := by
  intro a b h
  simp only [marvelTag, PyVal.vstr.injEq] at h
  have h2 := natDec_injective (List.append_cancel_left h)
  omega

theorem marvelRow_keys (i : Nat) (r : Row) :
    (marvelTagRow (i, marvelUncRow (projRow marvelSelCols r))).map Prod.fst
      = canonicalCols := rfl

theorem marvelRow_unc (i : Nat) (r : Row) :
    (marvelTagRow (i, marvelUncRow (projRow marvelSelCols r))).getD 1 ([], .vnan)
      = (colUnc, .vfloatLit (chars "0.0001")) := rfl

theorem marvelRow_last (i : Nat) (r : Row) :
    (marvelTagRow (i, marvelUncRow (projRow marvelSelCols r))).getLastD ([], .vnan)
      = (colTag, marvelTag i) := by
  simp [marvelTagRow, List.getLastD_concat]

/-- C7: every record assembled by the MARVEL block exposes its fields in the
canonical order wavenumber, uncertainty (the constant 0.0001, at position 1),
the seven upper-state quantum labels, the seven lower-state quantum labels,
then the tag; and the per-row tag cells are pairwise distinct. -/
theorem C7_marvel_canonical_order (t out : Table) (h : marvel_input t = .ok out) :
    (∀ r ∈ out, r.map Prod.fst = canonicalCols) ∧
    (∀ r ∈ out, r.getD 1 ([], .vnan) = (colUnc, .vfloatLit (chars "0.0001"))) ∧
    (out.map (fun r => r.getLastD ([], .vnan))).Nodup := by
  simp only [marvel_input, selectCols] at h
  cases hf : List.find? (fun c => !(tableCols t).contains c) marvelSelCols with
  | some c => rw [hf] at h; simp [Except.bind] at h
  | none =>
    rw [hf] at h
    simp only [Bind.bind, Except.bind, Pure.pure, Except.pure, Except.ok.injEq] at h
    subst h
    rw [List.map_map, List.enum_map, List.map_map]
    refine ⟨?_, ?_, ?_⟩
    · intro r hr
      obtain ⟨⟨i, r0⟩, _, rfl⟩ := List.mem_map.mp hr
      exact marvelRow_keys i r0
    · intro r hr
      obtain ⟨⟨i, r0⟩, _, rfl⟩ := List.mem_map.mp hr
      exact marvelRow_unc i r0
    · have hcongr :
          List.map ((fun r => List.getLastD r ([], PyVal.vnan)) ∘ marvelTagRow ∘
              Prod.map id (marvelUncRow ∘ projRow marvelSelCols)) t.enum
            = List.map ((fun i => ((colTag, marvelTag i) : List Char × PyVal)) ∘
              Prod.fst) t.enum :=
        List.map_congr_left (fun p _ => marvelRow_last p.1 p.2)
      rw [List.map_map, hcongr, ← List.map_map, List.enum_map_fst]
      refine List.Nodup.map ?_ (List.nodup_range _)
      intro a b hab
      simp only [Prod.mk.injEq, true_and] at hab
      exact marvelTag_injective hab

/-- Witness for C7 on a concrete two-row table carrying the selected columns. -/
theorem C7_witness :
    ∃ out, marvel_input marvelDemo = .ok out ∧
      (∀ r ∈ out, r.map Prod.fst = canonicalCols) ∧
      (∀ r ∈ out, r.getD 1 ([], .vnan) = (colUnc, .vfloatLit (chars "0.0001"))) ∧
      (out.map (fun r => r.getLastD ([], .vnan))).Nodup := by
  obtain ⟨out, hout⟩ : ∃ out, marvel_input marvelDemo = .ok out := ⟨_, rfl⟩
  exact ⟨out, hout, (C7_marvel_canonical_order _ _ hout).1,
    (C7_marvel_canonical_order _ _ hout).2.1, (C7_marvel_canonical_order _ _ hout).2.2⟩
